import Mathlib

/-!
Verification of the client-side realtime voice-chat engine of the
voice-chat-app-realtime repository: the PCM16 audio codec, the
voice-activity detector (VAD), the transport session's reconnect and
heartbeat policy, the turn-taking coordinator's interrupt/suppression
logic, the gapless playback scheduler, and the auth relay's credential
check.  Every definition is a shallow embedding of the corresponding
source function; doc comments name the source location.
-/

set_option maxHeartbeats 1000000

/-! ## Audio codec
`AudioProcessor.float32ToBase64PCM16` and `AudioProcessor.base64PCM16ToFloat32`
(src/services/audioProcessor.ts).  Samples are modelled as rationals; every
arithmetic step of the source (clamp, scale, truncate, wrap, byte split,
divide) is exact on the values involved.  The base64 leg (`btoa`/`atob`) is a
bijection on byte strings and is modelled as the byte list itself;
`Uint8Array` storage reduces char codes mod 256, which the decoder model
applies. -/

/-- The clamp `Math.max(-1, Math.min(1, x))` applied to each sample by
`float32ToBase64PCM16`. -/
def clampSample (x : ℚ) : ℚ := max (-1) (min 1 x)

/-- Truncation toward zero: the conversion `DataView.setInt16` applies to its
numeric argument (ECMAScript `ToInt16` truncates toward zero before
wrapping). -/
def truncQ (q : ℚ) : ℤ := if q < 0 then -Int.floor (-q) else Int.floor q

/-- The integer computed per sample by `float32ToBase64PCM16`:
`s = clamp(x); val = s < 0 ? s * 0x8000 : s * 0x7fff`, truncated. -/
def rawPCM16 (x : ℚ) : ℤ :=
  let s := clampSample x
  truncQ (if s < 0 then s * 32768 else s * 32767)

/-- The wrap into a signed 16-bit value performed by `DataView.setInt16`. -/
def toInt16Wrap (n : ℤ) : ℤ := (n + 32768) % 65536 - 32768

/-- The signed 16-bit value `setInt16` stores for one input sample. -/
def encodeSample (x : ℚ) : ℤ := toInt16Wrap (rawPCM16 x)

/-- Little-endian byte serialization of a stored int16 (two's complement),
as laid out in the `ArrayBuffer` by `setInt16(i * 2, val, true)`. -/
def int16ToBytes (n : ℤ) : List ℕ :=
  [(n % 65536).toNat % 256, (n % 65536).toNat / 256]

/-- `AudioProcessor.float32ToBase64PCM16` (audioProcessor.ts): clamp each
sample, scale (by 0x8000 when negative, 0x7fff otherwise), store as
little-endian int16 bytes.  The final `btoa` is the identity transport of
these bytes. -/
def float32ToBase64PCM16 : List ℚ → List ℕ
  | [] => []
  | x :: rest => int16ToBytes (encodeSample x) ++ float32ToBase64PCM16 rest

/-- Reinterpretation of a 16-bit unsigned value as signed, as done by
reading the byte buffer through an `Int16Array`. -/
def toSigned16 (m : ℕ) : ℤ := if m < 32768 then (m : ℤ) else (m : ℤ) - 65536

/-- The `Int16Array` view of the decoded byte buffer: consecutive
little-endian byte pairs become signed 16-bit samples.  Each byte passes
through a `Uint8Array` cell, hence the mod 256. -/
def bytePairsToInt16 : List ℕ → List ℤ
  | b0 :: b1 :: rest => toSigned16 (b0 % 256 + 256 * (b1 % 256)) :: bytePairsToInt16 rest
  | _ => []

/-- The per-sample division `float32[i] = pcm16[i] / 0x7fff` of
`base64PCM16ToFloat32`. -/
def decodeSample (n : ℤ) : ℚ := (n : ℚ) / 32767

/-- `AudioProcessor.base64PCM16ToFloat32` (audioProcessor.ts): bytes (the
`atob` output, one char code per byte, stored mod 256 in a `Uint8Array`)
viewed as little-endian int16 samples, each divided by 0x7fff. -/
def base64PCM16ToFloat32 (bytes : List ℕ) : List ℚ :=
  (bytePairsToInt16 bytes).map decodeSample

lemma neg_one_le_clampSample (x : ℚ) : -1 ≤ clampSample x := le_max_left _ _

lemma clampSample_le_one (x : ℚ) : clampSample x ≤ 1 :=
  max_le (by norm_num) (min_le_left _ _)

lemma rawPCM16_bounds (x : ℚ) : -32768 ≤ rawPCM16 x ∧ rawPCM16 x ≤ 32767 := by
  have h1 := neg_one_le_clampSample x
  have h2 := clampSample_le_one x
  unfold rawPCM16 truncQ
  set s := clampSample x with hs
  by_cases hneg : s < 0
  · have hq : s * 32768 < 0 := mul_neg_of_neg_of_pos hneg (by norm_num)
    simp only [hneg, if_true, hq]
    have hup : Int.floor (-(s * 32768)) ≤ 32768 := by
      rw [Int.floor_le_iff]
      push_cast
      nlinarith
    have hlo : 0 ≤ Int.floor (-(s * 32768)) := by
      rw [Int.le_floor]
      push_cast
      nlinarith
    omega
  · push_neg at hneg
    have hq : ¬ (s * 32767 < 0) := by push_neg; positivity
    simp only [not_lt.mpr hneg, if_false, hq]
    have hup : Int.floor (s * 32767) ≤ 32767 := by
      rw [Int.floor_le_iff]
      push_cast
      nlinarith
    have hlo : 0 ≤ Int.floor (s * 32767) := by
      rw [Int.le_floor]
      push_cast
      nlinarith
    omega

lemma toInt16Wrap_eq (n : ℤ) (h1 : -32768 ≤ n) (h2 : n ≤ 32767) : toInt16Wrap n = n := by
  unfold toInt16Wrap
  have h : (n + 32768) % 65536 = n + 32768 :=
    Int.emod_eq_of_lt (by omega) (by omega)
  omega

lemma encodeSample_eq_raw (x : ℚ) : encodeSample x = rawPCM16 x :=
  toInt16Wrap_eq _ (rawPCM16_bounds x).1 (rawPCM16_bounds x).2

lemma encodeSample_bounds (x : ℚ) : -32768 ≤ encodeSample x ∧ encodeSample x ≤ 32767 := by
  rw [encodeSample_eq_raw]; exact rawPCM16_bounds x

lemma bytePairs_int16ToBytes (n : ℤ) (h1 : -32768 ≤ n) (h2 : n ≤ 32767) (rest : List ℕ) :
    bytePairsToInt16 (int16ToBytes n ++ rest) = n :: bytePairsToInt16 rest := by
  unfold int16ToBytes
  have hm0 : 0 ≤ n % 65536 := Int.emod_nonneg n (by norm_num)
  have hmlt : n % 65536 < 65536 := Int.emod_lt_of_pos n (by norm_num)
  have hcase : n % 65536 = n ∨ n % 65536 = n + 65536 := by
    rcases le_or_lt 0 n with hn | hn
    · exact Or.inl (Int.emod_eq_of_lt hn (by omega))
    · right
      have h65 : (n + 65536 * 1) % 65536 = n % 65536 :=
        Int.add_mul_emod_self_left n 65536 1
      have h66 : (n + 65536) % 65536 = n + 65536 :=
        Int.emod_eq_of_lt (by omega) (by omega)
      omega
  set m := (n % 65536).toNat with hmdef
  have hmz : (m : ℤ) = n % 65536 := Int.toNat_of_nonneg hm0
  have hmlt2 : m < 65536 := by omega
  have e1 : m % 256 % 256 = m % 256 := Nat.mod_eq_of_lt (Nat.mod_lt _ (by norm_num))
  have e2 : m / 256 % 256 = m / 256 :=
    Nat.mod_eq_of_lt ((Nat.div_lt_iff_lt_mul (by norm_num)).mpr (by omega))
  simp only [List.cons_append, List.nil_append, bytePairsToInt16, e1, e2]
  have e3 : m % 256 + 256 * (m / 256) = m := Nat.mod_add_div m 256
  rw [e3]
  have e4 : toSigned16 m = n := by
    unfold toSigned16
    split <;> omega
  rw [e4]
  rfl

lemma codec_roundtrip_map : ∀ xs : List ℚ,
    base64PCM16ToFloat32 (float32ToBase64PCM16 xs)
      = xs.map fun x => decodeSample (encodeSample x)
  | [] => rfl
  | x :: rest => by
    have hb := encodeSample_bounds x
    unfold float32ToBase64PCM16 base64PCM16ToFloat32
    rw [bytePairs_int16ToBytes _ hb.1 hb.2]
    simpa [base64PCM16ToFloat32] using codec_roundtrip_map rest

lemma mem_bytePairsToInt16 : ∀ (bytes : List ℕ) (n : ℤ),
    n ∈ bytePairsToInt16 bytes → -32768 ≤ n ∧ n ≤ 32767
  | b0 :: b1 :: rest, n, h => by
    simp only [bytePairsToInt16, List.mem_cons] at h
    rcases h with h | h
    · subst h
      have hb0 : b0 % 256 < 256 := Nat.mod_lt _ (by norm_num)
      have hb1 : b1 % 256 < 256 := Nat.mod_lt _ (by norm_num)
      unfold toSigned16
      split <;> omega
    · exact mem_bytePairsToInt16 rest n h
  | [], n, h => by simp [bytePairsToInt16] at h
  | [b], n, h => by simp [bytePairsToInt16] at h

lemma decodeSample_range (n : ℤ) (h1 : -32768 ≤ n) (h2 : n ≤ 32767) :
    -(32768 / 32767) ≤ decodeSample n ∧ decodeSample n ≤ 1 := by
  unfold decodeSample
  constructor
  · rw [show (-(32768 / 32767) : ℚ) = (-32768) / 32767 by norm_num]
    apply div_le_div_of_nonneg_right ?_ (by norm_num) |>.trans_eq rfl
    · exact_mod_cast h1
  · rw [div_le_one (by norm_num)]
    exact_mod_cast h2

lemma div_abs_le (G s : ℚ) (hA : -1 ≤ G - 32767 * s) (hB : G - 32767 * s ≤ 1) :
    |G / 32767 - s| ≤ 1 / 32767 := by
  have hrw : G / 32767 - s = (G - 32767 * s) / 32767 := by ring
  rw [hrw, abs_div, abs_of_pos (show (0 : ℚ) < 32767 by norm_num)]
  exact div_le_div_of_nonneg_right (abs_le.mpr ⟨hA, hB⟩) (by norm_num) |>.trans_eq rfl

lemma roundtrip_close (x : ℚ) :
    |decodeSample (encodeSample x) - clampSample x| ≤ 1 / 32767 := by
  rw [encodeSample_eq_raw]
  have h1 := neg_one_le_clampSample x
  have h2 := clampSample_le_one x
  unfold rawPCM16 truncQ decodeSample
  set s := clampSample x with hs
  by_cases hneg : s < 0
  · have hq : s * 32768 < 0 := mul_neg_of_neg_of_pos hneg (by norm_num)
    simp only [hneg, if_true, hq]
    have hfl1 : ((Int.floor (-(s * 32768)) : ℤ) : ℚ) ≤ -(s * 32768) := Int.floor_le _
    have hfl2 : -(s * 32768) - 1 < ((Int.floor (-(s * 32768)) : ℤ) : ℚ) :=
      Int.sub_one_lt_floor _
    push_cast
    apply div_abs_le <;> linarith
  · push_neg at hneg
    have hq : ¬ (s * 32767 < 0) := by push_neg; positivity
    simp only [not_lt.mpr hneg, if_false, hq]
    have hfl1 : ((Int.floor (s * 32767) : ℤ) : ℚ) ≤ s * 32767 := Int.floor_le _
    have hfl2 : s * 32767 - 1 < ((Int.floor (s * 32767) : ℤ) : ℚ) := Int.sub_one_lt_floor _
    push_cast
    apply div_abs_le <;> linarith


lemma rawPCM16_def (x : ℚ) :
    rawPCM16 x = truncQ (if clampSample x < 0 then clampSample x * 32768
      else clampSample x * 32767) := rfl

/-- C10: the encoder clamps each sample to [-1, 1], scales negative samples
by 0x8000 and non-negative ones by 0x7fff, and every stored 16-bit value
lies in [-32768, 32767], so the `setInt16` wrap never fires (encoding is
total and overflow-free for arbitrary inputs). -/
theorem encoder_totality : ∀ x : ℚ,
    -32768 ≤ encodeSample x ∧ encodeSample x ≤ 32767 ∧
    encodeSample x = rawPCM16 x ∧
    rawPCM16 x = truncQ (if clampSample x < 0 then clampSample x * 32768
      else clampSample x * 32767) := fun x =>
  ⟨(encodeSample_bounds x).1, (encodeSample_bounds x).2, encodeSample_eq_raw x, rfl⟩

lemma decode_bytes_00_80 : base64PCM16ToFloat32 [0, 128] = [-(32768 / 32767)] := by
  have hbp : bytePairsToInt16 [0, 128] = [-32768] := by decide
  unfold base64PCM16ToFloat32
  rw [hbp]
  simp only [List.map_cons, List.map_nil, decodeSample]
  norm_num

/-- C9: every float produced by `base64PCM16ToFloat32` is the corresponding
signed 16-bit sample divided by 0x7fff, hence lies in [-32768/32767, 1];
the sample -32768 (bytes 0x00 0x80) decodes strictly below -1, so decoded
audio need not stay within [-1, 1]. -/
theorem decoder_output_range :
    (∀ (bytes : List ℕ), ∀ x ∈ base64PCM16ToFloat32 bytes,
        (∃ n, n ∈ bytePairsToInt16 bytes ∧ x = decodeSample n ∧
          -32768 ≤ n ∧ n ≤ 32767) ∧
        -(32768 / 32767) ≤ x ∧ x ≤ 1) ∧
    base64PCM16ToFloat32 [0, 128] = [-(32768 / 32767)] ∧
    (-(32768 / 32767) : ℚ) < -1 := by
  refine ⟨?_, decode_bytes_00_80, by norm_num⟩
  intro bytes x hx
  unfold base64PCM16ToFloat32 at hx
  rcases List.mem_map.mp hx with ⟨n, hn, hdx⟩
  have hb := mem_bytePairsToInt16 bytes n hn
  have hr := decodeSample_range n hb.1 hb.2
  exact ⟨⟨n, hn, hdx.symm, hb.1, hb.2⟩, hdx ▸ hr.1, hdx ▸ hr.2⟩

/-- Witness for C9's theorem at the byte pair 0x00 0x80. -/
theorem decoder_output_range_witness :
    (∃ n, n ∈ bytePairsToInt16 [0, 128] ∧ -(32768 / 32767) = decodeSample n ∧
      -32768 ≤ n ∧ n ≤ 32767) ∧
    -(32768 / 32767) ≤ (-(32768 / 32767) : ℚ) ∧ (-(32768 / 32767) : ℚ) ≤ 1 :=
  decoder_output_range.1 [0, 128] (-(32768 / 32767))
    (by rw [decode_bytes_00_80]; exact List.mem_singleton.mpr rfl)

/-- The round-trip property of the spec exactly as stated: decoding the
encoding reproduces each clamped sample within 1/32767, and decode∘encode
is idempotent (a second application of decode∘encode to the output of the
first yields the same values) for every sample sequence. -/
def roundTripClaim : Prop :=
  (∀ xs : List ℚ,
      ∀ p ∈ List.zip xs (base64PCM16ToFloat32 (float32ToBase64PCM16 xs)),
        |p.2 - clampSample p.1| ≤ 1 / 32767) ∧
  (∀ xs : List ℚ,
      base64PCM16ToFloat32 (float32ToBase64PCM16
        (base64PCM16ToFloat32 (float32ToBase64PCM16 xs)))
        = base64PCM16ToFloat32 (float32ToBase64PCM16 xs))

lemma rt_khalf : decodeSample (encodeSample (-(65535 / 65536) : ℚ)) = -1 := by
  have hclamp : clampSample (-(65535 / 65536) : ℚ) = -(65535 / 65536) := by
    unfold clampSample
    rw [min_eq_right (by norm_num), max_eq_right (by norm_num)]
  have hraw : rawPCM16 (-(65535 / 65536) : ℚ) = -32767 := by
    rw [rawPCM16_def, hclamp, if_pos (by norm_num : (-(65535 / 65536) : ℚ) < 0)]
    unfold truncQ
    rw [if_pos (by norm_num : (-(65535 / 65536) : ℚ) * 32768 < 0)]
    have hfe : Int.floor (-((-(65535 / 65536) : ℚ) * 32768)) = 32767 := by
      rw [Int.floor_eq_iff] <;> norm_num
    rw [hfe]
  rw [encodeSample_eq_raw, hraw]
  norm_num [decodeSample]

lemma rt_negone : decodeSample (encodeSample (-1 : ℚ)) = -(32768 / 32767) := by
  have hclamp : clampSample (-1 : ℚ) = -1 := by
    unfold clampSample
    rw [min_eq_right (by norm_num), max_eq_right (by norm_num)]
  have hraw : rawPCM16 (-1 : ℚ) = -32768 := by
    rw [rawPCM16_def, hclamp, if_pos (by norm_num : (-1 : ℚ) < 0)]
    unfold truncQ
    rw [if_pos (by norm_num : (-1 : ℚ) * 32768 < 0)]
    have hfe : Int.floor (-((-1 : ℚ) * 32768)) = 32768 := by
      rw [Int.floor_eq_iff] <;> norm_num
    rw [hfe]
  rw [encodeSample_eq_raw, hraw]
  norm_num [decodeSample]

/-- C5 counterexample: the sample -65535/65536 encodes to int16 -32767,
which decodes to exactly -1; re-encoding -1 gives int16 -32768, which
decodes to -32768/32767 ≠ -1.  So decode∘encode is not idempotent. -/
theorem codec_idempotence_claim_false : ¬ roundTripClaim := by
  intro h
  have h2 := h.2 [-(65535 / 65536)]
  rw [codec_roundtrip_map, codec_roundtrip_map] at h2
  simp only [List.map_cons, List.map_nil] at h2
  rw [rt_khalf, rt_negone] at h2
  have hcontra : (-(32768 / 32767) : ℚ) = -1 := List.head_eq_of_cons_eq h2
  norm_num at hcontra

lemma decode_encode_abs_le (x : ℚ) :
    |decodeSample (encodeSample x)| ≤ 32768 / 32767 := by
  have hb := encodeSample_bounds x
  unfold decodeSample
  rw [abs_div, abs_of_pos (show (0 : ℚ) < 32767 by norm_num)]
  have habs : |((encodeSample x : ℤ) : ℚ)| ≤ 32768 := by
    rw [abs_le]
    constructor
    · exact_mod_cast hb.1
    · exact_mod_cast hb.2.trans (by norm_num)
  exact div_le_div_of_nonneg_right habs (by norm_num)

/-- C5 amended: the byte-level round trip equals the per-sample map
decode∘encode; in exact per-sample arithmetic that map reproduces each
clamped sample within 1/32767; and under any faithful store rounding of
the decoded quotients (relative error at most 2^-24 on the int16
quotients, as the `Float32Array` store guarantees, every nonzero quotient
being in the normal range), the stored value is still within
1/32767 + 2^-23 of the clamped sample.  The idempotence conjunct of the
original claim is dropped as false: re-encoding the first application's
output need not reproduce it (see the counterexample), and the store
rounding the exact decoder omits perturbs further samples, so no
idempotence statement is made. -/
theorem codec_roundtrip_amended :
    (∀ xs : List ℚ,
        base64PCM16ToFloat32 (float32ToBase64PCM16 xs)
          = xs.map fun x => decodeSample (encodeSample x)) ∧
    (∀ x : ℚ, |decodeSample (encodeSample x) - clampSample x| ≤ 1 / 32767) ∧
    (∀ r : ℚ → ℚ,
        (∀ n : ℤ, -32768 ≤ n → n ≤ 32767 →
          |r (decodeSample n) - decodeSample n| ≤ |decodeSample n| / 2 ^ 24) →
        ∀ x : ℚ,
          |r (decodeSample (encodeSample x)) - clampSample x|
            ≤ 1 / 32767 + 1 / 2 ^ 23) := by
  refine ⟨codec_roundtrip_map, roundtrip_close, ?_⟩
  intro r hr x
  have hb := encodeSample_bounds x
  have h1 := roundtrip_close x
  have h2 := hr (encodeSample x) hb.1 hb.2
  have h3 := decode_encode_abs_le x
  have htri : |r (decodeSample (encodeSample x)) - clampSample x|
      ≤ |r (decodeSample (encodeSample x)) - decodeSample (encodeSample x)|
        + |decodeSample (encodeSample x) - clampSample x| :=
    abs_sub_le _ _ _
  have h4 : |decodeSample (encodeSample x)| / 2 ^ 24 ≤ 1 / 2 ^ 23 := by
    have h5 : |decodeSample (encodeSample x)| / 2 ^ 24
        ≤ (32768 / 32767) / 2 ^ 24 :=
      div_le_div_of_nonneg_right h3 (by positivity)
    have h6 : ((32768 / 32767 : ℚ)) / 2 ^ 24 ≤ 1 / 2 ^ 23 := by norm_num
    exact h5.trans h6
  linarith

/-- Witness for C5's amended theorem: the identity map is a faithful store
rounding (zero error), instantiated at the sample 1/2. -/
theorem codec_roundtrip_amended_witness :
    |decodeSample (encodeSample (1 / 2)) - clampSample (1 / 2)|
      ≤ 1 / 32767 + 1 / 2 ^ 23 :=
  codec_roundtrip_amended.2.2 (fun v => v)
    (fun n h1 h2 => by simp only [sub_self, abs_zero]; positivity) (1 / 2)

/-! ## Voice activity detection
`AudioProcessor.processVAD` (audioProcessor.ts).  A frame's RMS is supplied
as a rational (the source computes it as `sqrt(sum/len)`; only its order
relative to the two thresholds matters here and sqrt is monotone).  The
`setTimeout` silence timer is modelled by explicit `timerFire` events: a
valid trace fires a pending timer no earlier than its arm time plus the
1500 ms delay, exactly as the platform guarantees for `setTimeout`. -/

def SILENCE_THRESHOLD : ℚ := 1 / 100

def SPEECH_THRESHOLD : ℚ := 1 / 50

def SILENCE_DURATION : ℕ := 1500

/-- VAD mutable state of `AudioProcessor`: `isSpeaking`, `silenceStartTime`
(0 is the source's "unset" sentinel) and the pending silence timer,
represented by its arm time. -/
structure VADState where
  isSpeaking : Bool
  silenceStartTime : ℕ
  silenceTimer : Option ℕ
deriving DecidableEq

inductive VADEvent
  | frame (now : ℕ) (rms : ℚ)
  | timerFire (now : ℕ)
deriving DecidableEq

inductive VADSignal
  | speechStart
  | speechEnd
  | volume (v : ℚ)
deriving DecidableEq

def initVAD : VADState := ⟨false, 0, none⟩

/-- One step of `processVAD` (a frame callback) or of the armed silence
timer's callback.  Signals are tagged with the `Date.now()` at emission. -/
def vadStep (st : VADState) (e : VADEvent) : VADState × List (ℕ × VADSignal) :=
  match e with
  | .frame now rms =>
    let vol : ℕ × VADSignal := (now, .volume (min (rms * 10) 1))
    if SPEECH_THRESHOLD < rms then
      (⟨true, 0, none⟩, if st.isSpeaking then [vol] else [vol, (now, .speechStart)])
    else if rms < SILENCE_THRESHOLD then
      if st.isSpeaking then
        ({ st with
            silenceStartTime := if st.silenceStartTime = 0 then now else st.silenceStartTime,
            silenceTimer := some (st.silenceTimer.getD now) }, [vol])
      else (st, [vol])
    else (st, [vol])
  | .timerFire now =>
    if st.isSpeaking = true ∧ 0 < st.silenceStartTime ∧
        st.silenceStartTime + SILENCE_DURATION ≤ now then
      (⟨false, 0, none⟩, [(now, .speechEnd)])
    else ({ st with silenceTimer := none }, [])

def runVAD (st : VADState) : List VADEvent → VADState × List (ℕ × VADSignal)
  | [] => (st, [])
  | e :: rest =>
    let p := vadStep st e
    let q := runVAD p.1 rest
    (q.1, p.2 ++ q.2)

/-- Trace validity: event times are monotone, RMS values are non-negative,
and a timer fires only while armed and no earlier than arm time + 1500 ms. -/
def validVAD (st : VADState) (t0 : ℕ) : List VADEvent → Bool
  | [] => true
  | VADEvent.frame now rms :: rest =>
    decide (t0 ≤ now) && decide (0 ≤ rms) &&
      validVAD (vadStep st (.frame now rms)).1 now rest
  | VADEvent.timerFire now :: rest =>
    decide (t0 ≤ now) &&
      (match st.silenceTimer with
        | some a => decide (a + SILENCE_DURATION ≤ now)
        | none => false) &&
      validVAD (vadStep st (.timerFire now)).1 now rest

/-- The hysteresis claim exactly as stated: in every valid run from the
initial VAD state, a speech-end emitted at time t requires the RMS to have
dropped below the silence threshold and stayed there continuously for the
preceding 1500 ms, i.e. every frame in the window [t - 1500, t] has RMS
strictly below the silence threshold. -/
def vadHysteresisClaim : Prop :=
  ∀ evs, validVAD initVAD 0 evs = true →
    ∀ t, (t, VADSignal.speechEnd) ∈ (runVAD initVAD evs).2 →
      ∀ now rms, VADEvent.frame now rms ∈ evs → now ≤ t →
        t ≤ now + SILENCE_DURATION → rms < SILENCE_THRESHOLD

/-- A trace whose RMS rises above the speech threshold (frame at 0 ms),
drops below the silence threshold (frame at 100 ms, arming the timer),
then dips back into the dead zone (frame at 200 ms, RMS 0.015), with the
armed timer firing at 1600 ms. -/
def vadDipTrace : List VADEvent :=
  [.frame 0 (3 / 100), .frame 100 (1 / 200), .frame 200 (3 / 200), .timerFire 1600]

lemma vadDipTrace_valid : validVAD initVAD 0 vadDipTrace = true := by
  norm_num [vadDipTrace, validVAD, vadStep, initVAD, SILENCE_THRESHOLD,
    SPEECH_THRESHOLD, SILENCE_DURATION, Option.getD]

lemma vadDipTrace_speechEnd :
    (1600, VADSignal.speechEnd) ∈ (runVAD initVAD vadDipTrace).2 := by
  norm_num [vadDipTrace, runVAD, vadStep, initVAD, SILENCE_THRESHOLD,
    SPEECH_THRESHOLD, SILENCE_DURATION, Option.getD, List.mem_append]

/-- C1 counterexample: in the dip trace, speech-end fires at 1600 ms even
though the frame at 200 ms (inside the 1500 ms window before the emission)
has RMS 0.015, in the dead zone above the silence threshold: dead-zone
frames neither reset the silence start nor cancel the armed timer, and the
timer callback does not re-check the RMS. -/
theorem vad_hysteresis_claim_false : ¬ vadHysteresisClaim := by
  intro h
  have h3 := h vadDipTrace vadDipTrace_valid 1600 vadDipTrace_speechEnd 200 (3 / 200)
    (by simp [vadDipTrace]) (by norm_num) (by norm_num [SILENCE_DURATION])
  norm_num [SILENCE_THRESHOLD] at h3

lemma speechEnd_origin : ∀ (evs : List VADEvent) (st : VADState) (t : ℕ),
    (t, VADSignal.speechEnd) ∈ (runVAD st evs).2 →
    (∃ s rms, VADEvent.frame s rms ∈ evs ∧ rms < SILENCE_THRESHOLD ∧
        s + SILENCE_DURATION ≤ t) ∨
    (0 < st.silenceStartTime ∧ st.silenceStartTime + SILENCE_DURATION ≤ t) := by
  intro evs
  induction evs with
  | nil => intro st t h; simp [runVAD] at h
  | cons e rest ih =>
    intro st t h
    simp only [runVAD, List.mem_append] at h
    cases e with
    | frame now rms =>
      by_cases hsp : SPEECH_THRESHOLD < rms
      · rcases h with hin | hin
        · exfalso
          by_cases hspk : st.isSpeaking = true <;>
            simp [vadStep, hsp, hspk] at hin
        · rcases ih _ t hin with ⟨s, r2, hm, hlt, hle⟩ | hR
          · exact Or.inl ⟨s, r2, List.mem_cons_of_mem _ hm, hlt, hle⟩
          · exfalso
            simp [vadStep, hsp] at hR
      · by_cases hsil : rms < SILENCE_THRESHOLD
        · by_cases hspk : st.isSpeaking = true
          · rcases h with hin | hin
            · exfalso; simp [vadStep, hsp, hsil, hspk] at hin
            · rcases ih _ t hin with ⟨s, r2, hm, hlt, hle⟩ | hR
              · exact Or.inl ⟨s, r2, List.mem_cons_of_mem _ hm, hlt, hle⟩
              · by_cases hz : st.silenceStartTime = 0
                · refine Or.inl ⟨now, rms, List.mem_cons_self _ _, hsil, ?_⟩
                  simpa [vadStep, hsp, hsil, hspk, hz] using hR.2
                · refine Or.inr ?_
                  simpa [vadStep, hsp, hsil, hspk, hz] using hR
          · rcases h with hin | hin
            · exfalso; simp [vadStep, hsp, hsil, hspk] at hin
            · rcases ih _ t hin with ⟨s, r2, hm, hlt, hle⟩ | hR
              · exact Or.inl ⟨s, r2, List.mem_cons_of_mem _ hm, hlt, hle⟩
              · refine Or.inr ?_
                simpa [vadStep, hsp, hsil, hspk] using hR
        · rcases h with hin | hin
          · exfalso; simp [vadStep, hsp, hsil] at hin
          · rcases ih _ t hin with ⟨s, r2, hm, hlt, hle⟩ | hR
            · exact Or.inl ⟨s, r2, List.mem_cons_of_mem _ hm, hlt, hle⟩
            · refine Or.inr ?_
              simpa [vadStep, hsp, hsil] using hR
    | timerFire now =>
      by_cases hc : st.isSpeaking = true ∧ 0 < st.silenceStartTime ∧
          st.silenceStartTime + SILENCE_DURATION ≤ now
      · rcases h with hin | hin
        · simp [vadStep, hc] at hin
          refine Or.inr ⟨hc.2.1, ?_⟩
          omega
        · rcases ih _ t hin with ⟨s, r2, hm, hlt, hle⟩ | hR
          · exact Or.inl ⟨s, r2, List.mem_cons_of_mem _ hm, hlt, hle⟩
          · exfalso
            simp [vadStep, hc] at hR
      · rcases h with hin | hin
        · exfalso; simp [vadStep, hc] at hin
        · rcases ih _ t hin with ⟨s, r2, hm, hlt, hle⟩ | hR
          · exact Or.inl ⟨s, r2, List.mem_cons_of_mem _ hm, hlt, hle⟩
          · refine Or.inr ?_
            simpa [vadStep, hc] using hR

/-- C1 amended: once speech has started, a speech-end can only be emitted
by the silence timer, at least 1500 ms after some frame whose RMS was
strictly below the silence threshold (and, per `vadStep`, only if no
frame above the speech threshold intervened, since such a frame clears the
timer and the silence start); frames themselves never emit speech-end, so
a dip into the dead zone emits nothing — but dead-zone frames also do not
cancel a pending silence run, so the RMS need not stay below the silence
threshold continuously for the whole 1500 ms. -/
theorem vad_speechEnd_requires_silence_onset :
    (∀ evs t, (t, VADSignal.speechEnd) ∈ (runVAD initVAD evs).2 →
        ∃ s rms, VADEvent.frame s rms ∈ evs ∧ rms < SILENCE_THRESHOLD ∧
          s + SILENCE_DURATION ≤ t) ∧
    (∀ st now rms t, (t, VADSignal.speechEnd) ∉ (vadStep st (.frame now rms)).2) := by
  constructor
  · intro evs t h
    rcases speechEnd_origin evs initVAD t h with hL | hR
    · exact hL
    · exact absurd hR.1 (by simp [initVAD])
  · intro st now rms t hin
    simp only [vadStep] at hin
    split_ifs at hin <;> simp at hin

/-- Witness for C1's amended theorem on the dip trace: the speech-end at
1600 ms is preceded by the below-silence-threshold frame at 100 ms. -/
theorem vad_speechEnd_requires_silence_onset_witness :
    ∃ s rms, VADEvent.frame s rms ∈ vadDipTrace ∧ rms < SILENCE_THRESHOLD ∧
      s + SILENCE_DURATION ≤ 1600 :=
  vad_speechEnd_requires_silence_onset.1 vadDipTrace 1600 vadDipTrace_speechEnd

/-! ## Transport session
`RealtimeService` (realtimeService.ts): the `ws.onclose` reconnect policy,
`disconnect()`, the `proxy.connected` handler, and the
`startHeartbeat`/`stopHeartbeat` pair.  The `setInterval` heartbeat is
modelled by `heartbeatTick` events: a valid trace ticks an armed interval
exactly at arm time + (k+1)·60000 for consecutive k. -/

def maxReconnectAttempts : ℕ := 3

def RECONNECT_DELAY : ℕ := 2000

def HEARTBEAT_INTERVAL : ℕ := 60000

/-- State of `RealtimeService`: reconnect counter, manual-disconnect flag,
connection readiness, and the heartbeat interval (arm time and number of
ticks so far, `none` when stopped). -/
structure RTState where
  reconnectAttempts : ℕ
  manualDisconnect : Bool
  isConnected : Bool
  heartbeat : Option (ℕ × ℕ)
deriving DecidableEq

inductive RTEvent
  | socketClose (now : ℕ)
  | disconnectCall (now : ℕ)
  | proxyConnected (now : ℕ)
  | heartbeatTick (now : ℕ)
deriving DecidableEq

inductive RTAction
  | notifyDisconnected
  | scheduleReconnect (delay : ℕ)
  | sendSessionInit
  | sendKeepAlive
deriving DecidableEq

def initRT : RTState := ⟨0, false, false, none⟩

/-- One handler dispatch of `RealtimeService`:
`ws.onclose` (sets `isConnected = false`, notifies, consumes a pending
manual-disconnect mark, else schedules `connect()` after 2000 ms while
fewer than 3 attempts were made); `disconnect()` (marks manual, stops the
heartbeat, closes); the `proxy.connected` event (ready: resets the attempt
counter, sends `session.update`, starts the heartbeat); one `setInterval`
heartbeat tick (sends the `task_continue` keep-alive iff still connected). -/
def rtStep (st : RTState) (e : RTEvent) : RTState × List (ℕ × RTAction) :=
  match e with
  | .socketClose t =>
    if st.manualDisconnect then
      ({ st with isConnected := false, manualDisconnect := false },
        [(t, .notifyDisconnected)])
    else if st.reconnectAttempts < maxReconnectAttempts then
      ({ st with isConnected := false, reconnectAttempts := st.reconnectAttempts + 1 },
        [(t, .notifyDisconnected), (t, .scheduleReconnect RECONNECT_DELAY)])
    else ({ st with isConnected := false }, [(t, .notifyDisconnected)])
  | .disconnectCall _ =>
    ({ st with manualDisconnect := true, heartbeat := none, isConnected := false }, [])
  | .proxyConnected t =>
    ({ st with isConnected := true, reconnectAttempts := 0, heartbeat := some (t, 0) },
      [(t, .sendSessionInit)])
  | .heartbeatTick t =>
    match st.heartbeat with
    | none => (st, [])
    | some (a, k) =>
      ({ st with heartbeat := some (a, k + 1) },
        if st.isConnected then [(t, .sendKeepAlive)] else [])

def runRT (st : RTState) : List RTEvent → RTState × List (ℕ × RTAction)
  | [] => (st, [])
  | e :: rest =>
    let p := rtStep st e
    let q := runRT p.1 rest
    (q.1, p.2 ++ q.2)

/-- Trace validity: times are monotone and a heartbeat tick occurs exactly
at arm time + (k+1)·60000 of an armed interval. -/
def validRT (st : RTState) (t0 : ℕ) : List RTEvent → Bool
  | [] => true
  | RTEvent.socketClose now :: rest =>
    decide (t0 ≤ now) && validRT (rtStep st (.socketClose now)).1 now rest
  | RTEvent.disconnectCall now :: rest =>
    decide (t0 ≤ now) && validRT (rtStep st (.disconnectCall now)).1 now rest
  | RTEvent.proxyConnected now :: rest =>
    decide (t0 ≤ now) && validRT (rtStep st (.proxyConnected now)).1 now rest
  | RTEvent.heartbeatTick now :: rest =>
    decide (t0 ≤ now) &&
      (match st.heartbeat with
        | some p => decide (now = p.1 + (p.2 + 1) * HEARTBEAT_INTERVAL)
        | none => false) &&
      validRT (rtStep st (.heartbeatTick now)).1 now rest

def closeEvents (n : ℕ) : List RTEvent := List.replicate n (.socketClose 0)

def countReconnects (as : List (ℕ × RTAction)) : ℕ :=
  as.countP fun a => match a.2 with
    | RTAction.scheduleReconnect _ => true
    | _ => false

lemma countReconnects_append (as bs : List (ℕ × RTAction)) :
    countReconnects (as ++ bs) = countReconnects as + countReconnects bs :=
  List.countP_append _ _ _


lemma rtStep_close_manual (st : RTState) (t : ℕ) (hm : st.manualDisconnect = true) :
    rtStep st (.socketClose t)
      = ({ st with isConnected := false, manualDisconnect := false },
          [(t, RTAction.notifyDisconnected)]) := by
  simp [rtStep, hm]

lemma rtStep_close_retry (st : RTState) (t : ℕ) (hm : st.manualDisconnect = false)
    (hlt : st.reconnectAttempts < maxReconnectAttempts) :
    rtStep st (.socketClose t)
      = ({ st with
            isConnected := false
            reconnectAttempts := st.reconnectAttempts + 1 },
          [(t, RTAction.notifyDisconnected),
            (t, RTAction.scheduleReconnect RECONNECT_DELAY)]) := by
  simp [rtStep, hm, hlt]

lemma rtStep_close_exhausted (st : RTState) (t : ℕ) (hm : st.manualDisconnect = false)
    (hge : ¬ st.reconnectAttempts < maxReconnectAttempts) :
    rtStep st (.socketClose t)
      = ({ st with isConnected := false }, [(t, RTAction.notifyDisconnected)]) := by
  simp [rtStep, hm, hge]

lemma countReconnects_closes : ∀ (n : ℕ) (st : RTState),
    st.manualDisconnect = false →
    countReconnects (runRT st (closeEvents n)).2
      = min n (maxReconnectAttempts - st.reconnectAttempts) := by
  intro n
  have h3 : maxReconnectAttempts = 3 := rfl
  induction n with
  | zero => intro st hm; simp [closeEvents, runRT, countReconnects]
  | succ n ih =>
    intro st hm
    have hrepl : closeEvents (n + 1) = RTEvent.socketClose 0 :: closeEvents n := by
      simp [closeEvents, List.replicate_succ]
    rw [hrepl]
    simp only [runRT, countReconnects_append]
    by_cases hlt : st.reconnectAttempts < maxReconnectAttempts
    · rw [rtStep_close_retry st 0 hm hlt]
      rw [ih _ (by simp [hm])]
      simp only [countReconnects, List.countP_cons, List.countP_nil]
      norm_num
      simp only [h3] at hlt ⊢
      omega
    · rw [rtStep_close_exhausted st 0 hm hlt]
      rw [ih _ (by simp [hm])]
      simp only [countReconnects, List.countP_cons, List.countP_nil]
      norm_num
      simp only [h3] at hlt ⊢
      omega

/-- C3: starting from any state not marked as manually disconnected,
N consecutive unexpected closes schedule exactly
min(N, 3 - attempts-so-far) reconnect attempts (min(N, 3) from a fresh
state); every scheduled attempt uses the fixed 2000 ms delay; and a close
consumed by a preceding `disconnect()` performs no scheduling at all. -/
theorem reconnect_bound :
    (∀ n (st : RTState), st.manualDisconnect = false →
        countReconnects (runRT st (closeEvents n)).2
          = min n (maxReconnectAttempts - st.reconnectAttempts)) ∧
    (∀ (st : RTState) (e : RTEvent) t d,
        (t, RTAction.scheduleReconnect d) ∈ (rtStep st e).2 → d = RECONNECT_DELAY) ∧
    (∀ (st : RTState) t, st.manualDisconnect = true →
        (rtStep st (.socketClose t)).2 = [(t, RTAction.notifyDisconnected)]) := by
  refine ⟨countReconnects_closes, ?_, ?_⟩
  · intro st e t d h
    cases e with
    | socketClose t2 =>
      simp only [rtStep] at h
      split_ifs at h <;> simp at h
      exact h.2
    | disconnectCall t2 => simp [rtStep] at h
    | proxyConnected t2 => simp [rtStep] at h
    | heartbeatTick t2 =>
      simp only [rtStep] at h
      rcases hh : st.heartbeat with _ | p <;> rw [hh] at h
      · simp at h
      · split_ifs at h <;> simp at h
  · intro st t hm
    rw [rtStep_close_manual st t hm]

/-- Witness for C3: five consecutive unexpected closes from the initial
state schedule exactly min(5, 3) = 3 reconnect attempts. -/
theorem reconnect_bound_witness :
    countReconnects (runRT initRT (closeEvents 5)).2
      = min 5 (maxReconnectAttempts - initRT.reconnectAttempts) :=
  reconnect_bound.1 5 initRT rfl

lemma keepAlive_origin : ∀ (evs : List RTEvent) (st : RTState) (t0 t : ℕ),
    validRT st t0 evs = true →
    (t, RTAction.sendKeepAlive) ∈ (runRT st evs).2 →
    (∃ a k, RTEvent.proxyConnected a ∈ evs ∧ t = a + (k + 1) * HEARTBEAT_INTERVAL) ∨
    (∃ a k0, st.heartbeat = some (a, k0) ∧
        ∃ k, t = a + (k + 1) * HEARTBEAT_INTERVAL) := by
  intro evs
  induction evs with
  | nil => intro st t0 t _ h; simp [runRT] at h
  | cons e rest ih =>
    intro st t0 t hv h
    simp only [runRT, List.mem_append] at h
    cases e with
    | socketClose now =>
      simp only [validRT, Bool.and_eq_true] at hv
      rcases h with hin | hin
      · exfalso
        simp only [rtStep] at hin
        split_ifs at hin <;> simp at hin
      · have hhb : (rtStep st (.socketClose now)).1.heartbeat = st.heartbeat := by
          simp only [rtStep]
          split_ifs <;> rfl
        rcases ih _ now t hv.2 hin with ⟨a, k, hm, ht⟩ | ⟨a, k0, heq, k, ht⟩
        · exact Or.inl ⟨a, k, List.mem_cons_of_mem _ hm, ht⟩
        · exact Or.inr ⟨a, k0, hhb ▸ heq, k, ht⟩
    | disconnectCall now =>
      simp only [validRT, Bool.and_eq_true] at hv
      rcases h with hin | hin
      · simp [rtStep] at hin
      · rcases ih _ now t hv.2 hin with ⟨a, k, hm, ht⟩ | ⟨a, k0, heq, k, ht⟩
        · exact Or.inl ⟨a, k, List.mem_cons_of_mem _ hm, ht⟩
        · exfalso
          simp [rtStep] at heq
    | proxyConnected now =>
      simp only [validRT, Bool.and_eq_true] at hv
      rcases h with hin | hin
      · simp [rtStep] at hin
      · rcases ih _ now t hv.2 hin with ⟨a, k, hm, ht⟩ | ⟨a, k0, heq, k, ht⟩
        · exact Or.inl ⟨a, k, List.mem_cons_of_mem _ hm, ht⟩
        · have hae : a = now := by
            simp [rtStep] at heq
            exact heq.1.symm
          exact Or.inl ⟨now, k, List.mem_cons_self _ _, hae ▸ ht⟩
    | heartbeatTick now =>
      rcases hhb : st.heartbeat with _ | ⟨a0, k0⟩
      · exfalso
        simp only [validRT, hhb, Bool.and_eq_true] at hv
        exact absurd hv.1.2 (by simp)
      · simp only [validRT, hhb, Bool.and_eq_true, decide_eq_true_eq] at hv
        have htick : now = a0 + (k0 + 1) * HEARTBEAT_INTERVAL := hv.1.2
        rcases h with hin | hin
        · have ht : t = now := by
            simp only [rtStep, hhb] at hin
            split_ifs at hin <;> simp at hin
            exact hin
          exact Or.inr ⟨a0, k0, rfl, k0, ht.trans htick⟩
        · have hhb2 : (rtStep st (.heartbeatTick now)).1.heartbeat
              = some (a0, k0 + 1) := by
            simp [rtStep, hhb]
          rcases ih _ now t hv.2 hin with ⟨a, k, hm, ht⟩ | ⟨a, k1, heq, k, ht⟩
          · exact Or.inl ⟨a, k, List.mem_cons_of_mem _ hm, ht⟩
          · rw [hhb2] at heq
            have hae : a = a0 := by
              simp at heq
              exact heq.1.symm
            exact Or.inr ⟨a0, k0, rfl, k, hae ▸ ht⟩

/-- C4: in every valid run from the initial state, a keep-alive is sent
only at a heartbeat tick of an interval armed by a `proxy.connected`
readiness event, exactly (k+1)·60000 ms after that event, hence never
before the ready state; every tick of an armed interval while the
connection is up does send the keep-alive; and `disconnect()` stops the
heartbeat timer. -/
theorem heartbeat_cadence :
    (∀ evs t, validRT initRT 0 evs = true →
        (t, RTAction.sendKeepAlive) ∈ (runRT initRT evs).2 →
        ∃ a k, RTEvent.proxyConnected a ∈ evs ∧
          t = a + (k + 1) * HEARTBEAT_INTERVAL) ∧
    (∀ (st : RTState) (a k t : ℕ), st.heartbeat = some (a, k) →
        st.isConnected = true →
        (t, RTAction.sendKeepAlive) ∈ (rtStep st (.heartbeatTick t)).2) ∧
    (∀ (st : RTState) t, (rtStep st (.disconnectCall t)).1.heartbeat = none) := by
  refine ⟨?_, ?_, ?_⟩
  · intro evs t hv h
    rcases keepAlive_origin evs initRT 0 t hv h with hL | ⟨a, k0, heq, _⟩
    · exact hL
    · exact absurd heq (by simp [initRT])
  · intro st a k t hhb hc
    simp [rtStep, hhb, hc]
  · intro st t
    simp [rtStep]

def heartbeatTrace : List RTEvent :=
  [.proxyConnected 5, .heartbeatTick 60005]

/-- Witness for C4 on a concrete valid trace: readiness at 5 ms, first
tick at 60005 ms, whose keep-alive is traced back to the readiness
event. -/
theorem heartbeat_cadence_witness :
    ∃ a k, RTEvent.proxyConnected a ∈ heartbeatTrace ∧
      60005 = a + (k + 1) * HEARTBEAT_INTERVAL :=
  heartbeat_cadence.1 heartbeatTrace 60005 (by decide) (by decide)

/-! ## Turn-taking coordinator
`App.tsx`: the realtime callbacks (`onResponseStart`, `onTextDelta`,
`onAudioDelta`, `onAudioDone` with its `checkPlaybackDone` poll), the
VAD speech-start handler, `handleInterrupt`, `startListening`, and the
enter-conversation-mode branch of `handleVoiceInput`.  Each handler
dispatch is one event; React state setters and refs are the fields of one
record, updated in program order (so a later setter in the same handler
overwrites an earlier one, as the committed React state does). -/

/-- Coordinator state: connection/conversation/listening/responding flags,
the interruption ref, the has-speech ref, the streaming-text accumulator,
and the audio player's queue/playing pair (base64 chunks). -/
structure AppState where
  connected : Bool
  conversationMode : Bool
  listening : Bool
  responding : Bool
  interrupted : Bool
  hasSpeech : Bool
  streamingText : String
  queue : List String
  playing : Bool
  error : Option String
deriving DecidableEq

/-- The message thrown by `startCapture` when the microphone permission is
denied, as re-thrown by `AudioProcessor.startCapture`. -/
def captureErrorMessage : String := "Permission denied"

/-- `AudioProcessor.stopPlayback` as seen from the coordinator: current
source stopped, queue cleared, playing flag reset. -/
def stopPlaybackApp (st : AppState) : AppState :=
  { st with queue := [], playing := false }

/-- `AudioProcessor.playNextChunk` queue/flag behaviour: on an empty queue
turn idle, otherwise shift the head chunk and keep playing. -/
def playNextChunkApp (st : AppState) : AppState :=
  match st.queue with
  | [] => { st with playing := false }
  | _ :: rest => { st with playing := true, queue := rest }

/-- `AudioProcessor.playAudioChunk`: push the chunk on the queue and start
playback when idle. -/
def playAudioChunkApp (c : String) (st : AppState) : AppState :=
  let st1 := { st with queue := st.queue ++ [c] }
  if st1.playing then st1 else playNextChunkApp st1

/-- `startListening` (App.tsx): guard on the connected service, reset the
has-speech flag and the VAD state, attempt capture, set the listening flag
on success or record the capture error on failure.  The second component
counts capture attempts. -/
def startListening (captureOk : Bool) (st : AppState) : AppState × ℕ :=
  if st.connected = false then (st, 0)
  else
    let st1 := { st with hasSpeech := false }
    if captureOk then ({ st1 with listening := true }, 1)
    else ({ st1 with error := some captureErrorMessage }, 1)

inductive AppEvent
  | responseCreated
  | textDelta (d : String)
  | audioDelta (c : String)
  | audioDone
  | drainCheck (captureOk : Bool)
  | speechStart
  | manualInterrupt
deriving DecidableEq

/-- One callback dispatch of App.tsx:
`onResponseStart` (clears the interruption ref, marks responding, resets
the streaming text); `onTextDelta`/`onAudioDelta` (no-ops while the
interruption ref is set, else accumulate/enqueue); `onAudioDone` (only
schedules the poll); one `checkPlaybackDone` poll (when playback is idle:
clears responding unless interrupted, clears the interruption ref, and in
conversation mode resumes listening); the VAD speech-start handler
(barge-in while responding); and `handleInterrupt`. -/
def appStep (st : AppState) (e : AppEvent) : AppState :=
  match e with
  | .responseCreated =>
    { st with interrupted := false, responding := true, streamingText := "" }
  | .textDelta d =>
    if st.interrupted then st
    else { st with responding := true, streamingText := st.streamingText ++ d }
  | .audioDelta c =>
    if st.interrupted then st
    else playAudioChunkApp c { st with responding := true }
  | .audioDone => st
  | .drainCheck ok =>
    if st.playing then st
    else
      let st1 := { st with
        responding := if st.interrupted then st.responding else false
        interrupted := false }
      if st1.conversationMode then
        let st2 := { st1 with hasSpeech := false }
        if st2.listening then st2 else (startListening ok st2).1
      else st1
  | .speechStart =>
    let st1 := { st with hasSpeech := true }
    if st1.responding then
      { (stopPlaybackApp st1) with
          interrupted := true
          responding := false
          streamingText := ""
          hasSpeech := true }
    else st1
  | .manualInterrupt =>
    { (stopPlaybackApp st) with
        interrupted := true
        streamingText := ""
        responding := false }

def runApp (st : AppState) : List AppEvent → AppState
  | [] => st
  | e :: rest => runApp (appStep st e) rest

/-- Initial coordinator state of a freshly connected session. -/
def appInit0 : AppState :=
  ⟨true, false, false, false, false, false, "", [], false, none⟩

/-- A reachable interrupted state: a response started, one audio chunk
arrived and was taken up for playback, then the user interrupted. -/
def stC2 : AppState :=
  runApp appInit0 [.responseCreated, .audioDelta "a", .manualInterrupt]

/-- The stale-event-suppression claim exactly as stated: while the
interruption flag is set, text deltas accumulate nothing and audio deltas
enqueue nothing, and the flag is cleared exactly by handling the next
response-created event — no other event clears it. -/
def staleSuppressionClaim : Prop :=
  ∀ st : AppState, st.interrupted = true →
    (∀ d, appStep st (.textDelta d) = st) ∧
    (∀ c, appStep st (.audioDelta c) = st) ∧
    ((appStep st .responseCreated).interrupted = false) ∧
    (∀ e, e ≠ AppEvent.responseCreated → (appStep st e).interrupted = true)

/-- C2 counterexample: from the reachable interrupted state `stC2`
(playback already stopped), one `checkPlaybackDone` poll — scheduled by
the trailing `response.audio.done` of the interrupted turn — clears the
interruption flag without any response-created event. -/
theorem stale_suppression_claim_false : ¬ staleSuppressionClaim := by
  intro h
  have h4 := (h stC2 (by decide)).2.2.2 (.drainCheck true) (by decide)
  exact absurd h4 (by decide)

lemma startListening_interrupted (ok : Bool) (st : AppState) :
    (startListening ok st).1.interrupted = st.interrupted := by
  unfold startListening
  split_ifs <;> rfl

/-- C2 amended: while the interruption flag is set, a text delta and an
audio delta are complete no-ops (no accumulation, no enqueue, flag kept);
handling the next response-created clears the flag; but the audio-done
drain poll also clears it whenever it finds playback idle — and these two
are exactly the events that end suppression. -/
theorem stale_suppression_amended :
    ∀ st : AppState, st.interrupted = true →
      (∀ d, appStep st (.textDelta d) = st) ∧
      (∀ c, appStep st (.audioDelta c) = st) ∧
      ((appStep st .responseCreated).interrupted = false) ∧
      (∀ ok, st.playing = false → (appStep st (.drainCheck ok)).interrupted = false) ∧
      (∀ e, (appStep st e).interrupted = false →
          e = AppEvent.responseCreated ∨
            (st.playing = false ∧ ∃ ok, e = AppEvent.drainCheck ok)) := by
  intro st hst
  refine ⟨?_, ?_, ?_, ?_, ?_⟩
  · intro d; simp [appStep, hst]
  · intro c; simp [appStep, hst]
  · simp [appStep]
  · intro ok hp
    simp only [appStep, hp, if_false, Bool.false_eq_true]
    split_ifs <;> simp [startListening_interrupted, hst]
  · intro e he
    cases e with
    | responseCreated => exact Or.inl rfl
    | textDelta d => simp [appStep, hst] at he
    | audioDelta c => simp [appStep, hst] at he
    | audioDone => simp [appStep, hst] at he
    | drainCheck ok =>
      by_cases hp : st.playing = true
      · exfalso; simp [appStep, hp, hst] at he
      · exact Or.inr ⟨by simpa using hp, ok, rfl⟩
    | speechStart =>
      exfalso
      simp only [appStep] at he
      split_ifs at he <;> simp [stopPlaybackApp, hst] at he
    | manualInterrupt =>
      exfalso
      simp [appStep, stopPlaybackApp] at he

/-- Witness for C2's amended theorem at the reachable state `stC2`: a
stale text delta leaves the state unchanged. -/
theorem stale_suppression_amended_witness :
    appStep stC2 (AppEvent.textDelta "x") = stC2 :=
  (stale_suppression_amended stC2 (by decide)).1 "x"

/-- `handleVoiceInput`, enter-conversation-mode branch (App.tsx): if the
assistant is responding, interrupt it (set the interruption ref, stop
playback, clear streaming text, clear responding); set the
conversation-mode flag; start listening; then clear the error state.
Returns the state and the number of capture attempts made. -/
def handleVoiceInputEnter (captureOk : Bool) (st : AppState) : AppState × ℕ :=
  let st1 :=
    if st.responding then
      { (stopPlaybackApp st) with
          interrupted := true
          responding := false
          streamingText := "" }
    else st
  let st2 := { st1 with conversationMode := true }
  let p := startListening captureOk st2
  ({ p.1 with error := none }, p.2)

/-- The capture-failure claim exactly as stated, on the
enter-conversation-mode path of a connected, idle session: when capture
fails, the error is surfaced, the conversation-mode flag keeps the value
it had before the attempt, and the listening flag stays false. -/
def captureFailureClaim : Prop :=
  ∀ st : AppState, st.connected = true → st.conversationMode = false →
    st.listening = false →
    (handleVoiceInputEnter false st).1.conversationMode = st.conversationMode ∧
    (handleVoiceInputEnter false st).1.listening = false ∧
    (handleVoiceInputEnter false st).1.error ≠ none

/-- C7 counterexample: entering conversation mode with a failing capture
from the fresh connected state leaves the conversation-mode flag true
(it was set before the attempt and is not rolled back), contradicting the
claim that the flag keeps its pre-attempt value; the error is also
overwritten with null at the end of the routine. -/
theorem capture_failure_claim_false : ¬ captureFailureClaim := by
  intro h
  have h2 := h appInit0 (by decide) (by decide) (by decide)
  exact absurd h2.1 (by decide)

/-- C7 amended: on capture failure while entering conversation mode the
listening flag stays false and exactly one capture attempt is made (no
automatic retry), but the conversation-mode flag — set to true before the
capture attempt — keeps the value true rather than the pre-attempt value,
and the error recorded by the capture handler is immediately overwritten
with null by the mode-entry routine, so no error remains surfaced. -/
theorem capture_failure_amended :
    ∀ st : AppState, st.connected = true → st.listening = false →
      (handleVoiceInputEnter false st).1.listening = false ∧
      (handleVoiceInputEnter false st).1.conversationMode = true ∧
      (handleVoiceInputEnter false st).1.error = none ∧
      (handleVoiceInputEnter false st).2 = 1 := by
  intro st hc hl
  unfold handleVoiceInputEnter startListening stopPlaybackApp
  by_cases hr : st.responding = true <;> simp [hr, hc, hl]

/-- Witness for C7's amended theorem at the fresh connected state. -/
theorem capture_failure_amended_witness :
    (handleVoiceInputEnter false appInit0).1.listening = false ∧
    (handleVoiceInputEnter false appInit0).1.conversationMode = true ∧
    (handleVoiceInputEnter false appInit0).1.error = none ∧
    (handleVoiceInputEnter false appInit0).2 = 1 :=
  capture_failure_amended appInit0 rfl rfl

/-! ## Playback scheduler
`AudioProcessor.playNextChunk` (audioProcessor.ts): the gapless scheduling
rule over the Web Audio output clock.  Times are rationals (seconds); a
chunk is its mono sample count and `audioBuffer.duration = length / 24000`. -/

def SAMPLE_RATE : ℕ := 24000

/-- `audioBuffer.duration` of a chunk of `len` mono samples at 24 kHz. -/
def chunkDuration (len : ℕ) : ℚ := (len : ℚ) / SAMPLE_RATE

/-- The scheduling step of `playNextChunk`:
`startTime = Math.max(currentTime, nextPlayTime)` and
`nextPlayTime = startTime + audioBuffer.duration`.  Returns the scheduled
start together with the new next play time. -/
def scheduleChunk (clock npt : ℚ) (len : ℕ) : ℚ × ℚ :=
  let start := max clock npt
  (start, start + chunkDuration len)

/-- Successive `playNextChunk` dispatches: each chunk carries the output
clock `audioContext.currentTime` observed when it is scheduled and its
sample count; the result lists the scheduled start times. -/
def scheduleRun (npt : ℚ) : List (ℚ × ℕ) → List ℚ
  | [] => []
  | (clock, len) :: rest =>
    let p := scheduleChunk clock npt len
    p.1 :: scheduleRun p.2 rest

/-- Arrival before the player catches up: each chunk is scheduled while
the output clock is at or before the pending next play time. -/
def arrivesInTime (npt : ℚ) : List (ℚ × ℕ) → Bool
  | [] => true
  | (clock, len) :: rest =>
    decide (clock ≤ npt) && arrivesInTime (max clock npt + chunkDuration len) rest

/-- The back-to-back timeline t, t+d1, t+d1+d2, ... -/
def backToBack (t : ℚ) : List ℕ → List ℚ
  | [] => []
  | len :: rest => t :: backToBack (t + chunkDuration len) rest

lemma scheduleRun_catchup : ∀ (rest : List (ℚ × ℕ)) (t : ℚ),
    arrivesInTime t rest = true →
    scheduleRun t rest = backToBack t (rest.map Prod.snd)
  | [], t, _ => rfl
  | (c, len) :: rest, t, h => by
    simp only [arrivesInTime, Bool.and_eq_true, decide_eq_true_eq] at h
    have hmax : max c t = t := max_eq_right h.1
    have hrec := scheduleRun_catchup rest (t + chunkDuration len)
      (by have h2 := h.2; rwa [hmax] at h2)
    simp only [scheduleRun, scheduleChunk, backToBack, List.map_cons, hmax, hrec]

/-- C6: each chunk's scheduled start equals
max(current output clock, end of the previously scheduled chunk), that end
becomes the new next-play-time, and no chunk ever starts before the
current clock; consequently, whenever every later chunk arrives before the
player catches up, the starts are exactly back-to-back:
t, t+d1, t+d1+d2, ... with t the first chunk's start. -/
theorem gapless_scheduling :
    (∀ (clock npt : ℚ) (len : ℕ),
        (scheduleChunk clock npt len).1 = max clock npt ∧
        (scheduleChunk clock npt len).2
          = (scheduleChunk clock npt len).1 + chunkDuration len ∧
        clock ≤ (scheduleChunk clock npt len).1) ∧
    (∀ (npt0 clock0 : ℚ) (len0 : ℕ) (rest : List (ℚ × ℕ)),
        arrivesInTime (max clock0 npt0 + chunkDuration len0) rest = true →
        scheduleRun npt0 ((clock0, len0) :: rest)
          = backToBack (max clock0 npt0) (len0 :: rest.map Prod.snd)) := by
  constructor
  · intro clock npt len
    exact ⟨rfl, rfl, le_max_left _ _⟩
  · intro npt0 clock0 len0 rest h
    simp only [scheduleRun, scheduleChunk, backToBack]
    exact congrArg _ (scheduleRun_catchup rest _ h)

/-- Witness for C6: three chunks (0.1 s, 0.2 s, 0.1 s) each arriving just
as the previous one ends are scheduled at 0, 0.1, 0.3 seconds. -/
theorem gapless_scheduling_witness :
    scheduleRun 0 [(0, 2400), (1 / 10, 4800), (3 / 10, 2400)]
      = backToBack (max 0 0)
          (2400 :: ([((1 : ℚ) / 10, 4800), ((3 : ℚ) / 10, 2400)].map Prod.snd)) :=
  gapless_scheduling.2 0 0 2400 [(1 / 10, 4800), (3 / 10, 2400)] (by
    norm_num [arrivesInTime, chunkDuration, SAMPLE_RATE])

/-! ## Auth relay
`server/proxy.js`: the inbound-connection handler's credential check. -/

/-- JS truthiness of an optional query-parameter string (`!apiKey`):
an absent parameter and an empty string are both falsy. -/
def truthyParam : Option String → Bool
  | none => false
  | some s => !(s == "")

def lookupQuery (q : List (String × String)) (k : String) : Option String :=
  (q.find? fun p => p.1 == k).map Prod.snd

inductive RelayAction
  | closeConn (code : ℕ) (reason : String)
  | connectUpstream (url : String) (auth : String)
deriving DecidableEq

def MINIMAX_WS_URL : String := "wss://api.minimaxi.com/ws/v1/realtime"

/-- The `wss.on('connection')` handler of server/proxy.js: read `apiKey`
and `model` from the URL query (`model` falls back to the fixed default
when absent or falsy); a falsy API key closes the inbound connection with
code 4001 and reason "Missing API Key" and returns before any upstream
socket is created; otherwise the upstream connection is opened with the
bearer authorization header. -/
def handleConnection (query : List (String × String)) : RelayAction :=
  let apiKey := lookupQuery query "apiKey"
  let model :=
    match lookupQuery query "model" with
    | some s => if s == "" then "abab6.5s-chat" else s
    | none => "abab6.5s-chat"
  if truthyParam apiKey = false then RelayAction.closeConn 4001 "Missing API Key"
  else
    RelayAction.connectUpstream (MINIMAX_WS_URL ++ "?model=" ++ model)
      ("Bearer " ++ apiKey.getD "")

/-- C8: an inbound relay connection whose URL query lacks the `apiKey`
parameter is closed with status code 4001 and reason "Missing API Key",
and no upstream connection is attempted for it. -/
theorem missing_api_key_close :
    ∀ query : List (String × String), lookupQuery query "apiKey" = none →
      handleConnection query = RelayAction.closeConn 4001 "Missing API Key" ∧
      ∀ url auth, handleConnection query ≠ RelayAction.connectUpstream url auth := by
  intro q hq
  have h1 : handleConnection q = RelayAction.closeConn 4001 "Missing API Key" := by
    simp only [handleConnection, hq]
    rfl
  refine ⟨h1, fun url auth hc => ?_⟩
  rw [h1] at hc
  exact RelayAction.noConfusion hc

/-- Witness for C8 at a query carrying only a model parameter. -/
theorem missing_api_key_close_witness :
    handleConnection [("model", "abab6.5s-chat")]
      = RelayAction.closeConn 4001 "Missing API Key" ∧
    ∀ url auth, handleConnection [("model", "abab6.5s-chat")]
      ≠ RelayAction.connectUpstream url auth :=
  missing_api_key_close [("model", "abab6.5s-chat")] (by rfl)
